import Mathlib

/-!
Verification of the EasyVVUQ QMC analysis core
(`easyvvuq/analysis/qmc_analysis.py`).

Embedding conventions:
* A quantity-of-interest (QoI) value is modelled as a rational number and a
  per-QoI sample stream as `List ℚ`.  All numpy operations used by the code
  (`np.mean`, `np.var`, `np.r_`, elementwise `*`, `-`, `**2`, comparison
  masks) act independently on each trailing-axis element of a vector-valued
  QoI, so the scalar embedding captures exactly the per-output-element
  computation the spec talks about.  Exact rational arithmetic stands in for
  IEEE floats: every identity claimed by the spec is algebraic.
* Numpy basic slicing `a[start:len:step]` is modelled by `npSlice`; fancy
  indexing `a[r]` for the bootstrap resampling is modelled by `colResample`
  (one bootstrap column at a time, which is how the axis-0 reductions of the
  estimators decompose) and `rowResample` for the sequential loop's `r[i]`.
* Fallible code paths (python `assert`, numpy broadcast `ValueError`,
  `IndexError` on an empty array) are modelled with `Except String`.
-/

/-- `np.mean(l, axis=0)`: the arithmetic mean over the sample axis. -/
def npMean (l : List ℚ) : ℚ := l.sum / l.length

/-- `np.var(l, axis=0)`: the population variance (numpy default `ddof=0`). -/
def npVar (l : List ℚ) : ℚ := npMean (l.map fun x => (x - npMean l) ^ 2)

/-- `QMCAnalysis._first_order(f_M2, f_M1, f_Ni)`:
`V = np.var(np.r_[f_M2, f_M1], axis=0)` and
`np.mean(f_M1 * (f_Ni - f_M2), axis=0) / (V + (V == 0)) * (V != 0)`. -/
def first_order (f_M2 f_M1 f_Ni : List ℚ) : ℚ :=
  let V := npVar (f_M2 ++ f_M1)
  npMean (List.zipWith (fun m1 d => m1 * d) f_M1 (List.zipWith (fun n m2 => n - m2) f_Ni f_M2))
    / (V + (if V = 0 then 1 else 0)) * (if V = 0 then 0 else 1)

/-- `QMCAnalysis._total_order(f_M2, f_M1, f_Ni)`:
`V = np.var(np.r_[f_M2, f_M1], axis=0)` and
`0.5 * np.mean((f_M2 - f_Ni) ** 2, axis=0) / (V + (V == 0)) * (V != 0)`. -/
def total_order (f_M2 f_M1 f_Ni : List ℚ) : ℚ :=
  let V := npVar (f_M2 ++ f_M1)
  (1 / 2) * npMean (List.zipWith (fun m2 n => (m2 - n) ^ 2) f_M2 f_Ni)
    / (V + (if V = 0 then 1 else 0)) * (if V = 0 then 0 else 1)

/-- The first-order estimator exactly as the spec words it:
`mean(f_M1 * (f_Ni - f_M2)) / V` with `V = var(concat(f_M2, f_M1))`. -/
def specFirstOrder (f_M2 f_M1 f_Ni : List ℚ) : ℚ :=
  npMean (List.zipWith (fun m1 d => m1 * d) f_M1 (List.zipWith (fun n m2 => n - m2) f_Ni f_M2))
    / npVar (f_M2 ++ f_M1)

/-- The total-order estimator exactly as the spec words it:
`0.5 * mean((f_M2 - f_Ni)^2) / V`. -/
def specTotalOrder (f_M2 f_M1 f_Ni : List ℚ) : ℚ :=
  (1 / 2) * npMean (List.zipWith (fun m2 n => (m2 - n) ^ 2) f_M2 f_Ni)
    / npVar (f_M2 ++ f_M1)

/-- C1: wherever `V = var(concat(f_M2, f_M1))` is nonzero, the code's
first-order estimator returns `mean(f_M1 * (f_Ni - f_M2)) / V` and the
total-order estimator returns `0.5 * mean((f_M2 - f_Ni)^2) / V`, exactly the
formulas of the spec. -/
theorem first_and_total_order_match_spec_formulas
    (f_M2 f_M1 f_Ni : List ℚ) (hV : npVar (f_M2 ++ f_M1) ≠ 0) :
    first_order f_M2 f_M1 f_Ni = specFirstOrder f_M2 f_M1 f_Ni ∧
    total_order f_M2 f_M1 f_Ni = specTotalOrder f_M2 f_M1 f_Ni := by
  constructor <;>
    simp [first_order, total_order, specFirstOrder, specTotalOrder, if_neg hV]

/-- C1 witness: `f_M2 = [0,1]`, `f_M1 = [1,2]`, `f_Ni = [1,0]` has
`V = var [0,1,1,2] = 1/2 ≠ 0`; both code estimators agree with the spec
formulas there. -/
theorem first_and_total_order_match_spec_formulas_witness :
    first_order [0, 1] [1, 2] [1, 0] = specFirstOrder [0, 1] [1, 2] [1, 0] ∧
    total_order [0, 1] [1, 2] [1, 0] = specTotalOrder [0, 1] [1, 2] [1, 0] :=
  first_and_total_order_match_spec_formulas [0, 1] [1, 2] [1, 0]
    (by norm_num [npVar, npMean])

/-- C2: wherever `V = var(concat(f_M2, f_M1))` is zero — in particular when
all samples are constant — both estimators return exactly `0`: the divisor is
masked to `V + 1` and the quotient multiplied by `0`, so no division by zero
is ever performed. -/
theorem sobol_estimators_zero_when_variance_zero
    (f_M2 f_M1 f_Ni : List ℚ) (hV : npVar (f_M2 ++ f_M1) = 0) :
    first_order f_M2 f_M1 f_Ni = 0 ∧ total_order f_M2 f_M1 f_Ni = 0 := by
  constructor <;> simp [first_order, total_order, if_pos hV]

/-- C2 witness: with constant `f_M2 = [3,3]`, `f_M1 = [3,3]` (so `V = 0`) and
arbitrary `f_Ni = [5,7]`, both estimators evaluate to exactly `0`. -/
theorem sobol_estimators_zero_when_variance_zero_witness :
    first_order [3, 3] [3, 3] [5, 7] = 0 ∧ total_order [3, 3] [3, 3] [5, 7] = 0 :=
  sobol_estimators_zero_when_variance_zero [3, 3] [3, 3] [5, 7]
    (by norm_num [npVar, npMean])

/-- Length of the numpy basic slice `a[start : len : step]` for `step > 0`:
`⌈(len - start) / step⌉` when `start < len`, else `0`. -/
def npSliceLen (len start step : ℕ) : ℕ :=
  if start < len then (len - start + step - 1) / step else 0

/-- The numpy basic slice `l[start : l.length : step]` (`step > 0`). -/
def npSlice (l : List ℚ) (start step : ℕ) : List ℚ :=
  (List.range (npSliceLen l.length start step)).map fun j => l.getD (start + j * step) 0

@[simp] lemma length_npSlice (l : List ℚ) (start step : ℕ) :
    (npSlice l start step).length = npSliceLen l.length start step := by
  simp [npSlice]

/-- Numpy assignment broadcasting of a 1-D slice into a length-`n`
destination column: a slice of matching length is copied as is, and a
length-1 slice is stretched — its single element repeated `n` times (for
`n = 0` it vanishes into the zero-row destination). -/
def broadcastTo (c : List ℚ) (n : ℕ) : List ℚ :=
  if c.length = n then c else List.replicate n (c.getD 0 0)

/-- `QMCAnalysis._separate_output_values(samples, n_params, n_mc_samples)`.
`evaluations[0]` on an empty array raises `IndexError`; the strided slices
`f_M2 = evaluations[0::step]` and `f_M1 = evaluations[step-1::step]` always
succeed; each assignment `f_Ni[:, i] = evaluations[i+1::step]` into the
`(n_mc, n_params, …)`-shaped zero array follows numpy assignment
broadcasting: it succeeds when the slice length equals `n_mc` (copied) or
equals `1` (the size-1 axis stretches to `n_mc` rows, including `n_mc = 0`),
and raises a broadcast `ValueError` for any other length.  `f_Ni` is
represented column-wise: one length-`n_mc` list per parameter, so the code's
`f_Ni[:, j]` is entry `j`. -/
def separate_output_values (samples : List ℚ) (n_params n_mc : ℕ) :
    Except String (List ℚ × List ℚ × List (List ℚ)) :=
  if samples.isEmpty then .error "IndexError: index 0 is out of bounds"
  else
    let step := n_params + 2
    let f_M2 := npSlice samples 0 step
    let f_M1 := npSlice samples (step - 1) step
    let cols := (List.range n_params).map fun i => npSlice samples (i + 1) step
    if cols.all fun c => c.length == n_mc || c.length == 1 then
      .ok (f_M2, f_M1, cols.map fun c => broadcastTo c n_mc)
    else .error "ValueError: could not broadcast input array"

lemma npSliceLen_mul (n_mc step start : ℕ) (hstep : 0 < step) (hmc : 1 ≤ n_mc)
    (hstart : start < step) : npSliceLen (step * n_mc) start step = n_mc := by
  have hL : start < step * n_mc :=
    lt_of_lt_of_le hstart (Nat.le_mul_of_pos_right step hmc)
  unfold npSliceLen
  rw [if_pos hL]
  have h1 : step * n_mc - start + step - 1 = step - 1 - start + step * n_mc := by
    omega
  rw [h1, Nat.add_mul_div_left _ _ hstep, Nat.div_eq_of_lt (by omega),
    Nat.zero_add]

lemma npSliceLen_cases (L start step : ℕ) (hstep : 0 < step) (hss : start < step)
    (hsL : start < L) :
    npSliceLen L start step = L / step + (if start < L % step then 1 else 0) := by
  have key : step * (L / step) + L % step = L := Nat.div_add_mod L step
  have hr : L % step < step := Nat.mod_lt _ hstep
  unfold npSliceLen
  rw [if_pos hsL]
  by_cases hc : start < L % step
  · have h1 : L - start + step - 1 = L % step - start - 1 + step * (L / step + 1) := by
      rw [Nat.mul_add, Nat.mul_one]; omega
    rw [h1, Nat.add_mul_div_left _ _ hstep, Nat.div_eq_of_lt (by omega),
      Nat.zero_add, if_pos hc]
  · have h1 : L - start + step - 1 = step - 1 - start + L % step + step * (L / step) := by
      omega
    rw [h1, Nat.add_mul_div_left _ _ hstep, Nat.div_eq_of_lt (by omega),
      Nat.zero_add, if_neg hc]
    rfl

/-- C3: on a sample list of length `n_mc * (n_params + 2)` the decomposition
succeeds and returns `f_M2` = elements at positions `0, step, 2*step, …`,
`f_M1` = elements at positions `step-1, 2*step-1, …`, and, for parameter `i`,
`f_Ni i` = elements at positions `i+1, step+i+1, …`, with `step = n_params+2`
— deterministically and order-preservingly. -/
theorem separate_output_values_recovers_saltelli_blocks
    (n_params n_mc : ℕ) (samples : List ℚ) (hp : 1 ≤ n_params) (hmc : 1 ≤ n_mc)
    (hlen : samples.length = n_mc * (n_params + 2)) :
    separate_output_values samples n_params n_mc =
      .ok ((List.range n_mc).map fun j => samples.getD (j * (n_params + 2)) 0,
           (List.range n_mc).map fun j => samples.getD (n_params + 1 + j * (n_params + 2)) 0,
           (List.range n_params).map fun i =>
             (List.range n_mc).map fun j => samples.getD (i + 1 + j * (n_params + 2)) 0) := by
  have hstep : 0 < n_params + 2 := by omega
  have hlen' : samples.length = (n_params + 2) * n_mc := by rw [hlen, Nat.mul_comm]
  have hpos : 0 < samples.length := by
    rw [hlen']; exact Nat.mul_pos hstep hmc
  have hnil : samples ≠ [] := by
    intro h; rw [h] at hpos; simp at hpos
  have hsl : ∀ start < n_params + 2,
      npSliceLen samples.length start (n_params + 2) = n_mc := by
    intro start hstart
    rw [hlen']; exact npSliceLen_mul n_mc (n_params + 2) start hstep hmc hstart
  unfold separate_output_values
  rw [if_neg (by simp [hnil])]
  have hall : ((List.range n_params).map fun i =>
      npSlice samples (i + 1) (n_params + 2)).all
        (fun c => c.length == n_mc || c.length == 1) = true := by
    rw [List.all_eq_true]
    intro c hc
    obtain ⟨i, hi, rfl⟩ := List.mem_map.mp hc
    have hi' : i < n_params := List.mem_range.mp hi
    simp [hsl (i + 1) (by omega)]
  rw [if_pos hall]
  have e1 : npSlice samples 0 (n_params + 2) =
      (List.range n_mc).map fun j => samples.getD (j * (n_params + 2)) 0 := by
    unfold npSlice
    rw [hsl 0 (by omega)]
    simp
  have e2 : npSlice samples (n_params + 2 - 1) (n_params + 2) =
      (List.range n_mc).map fun j => samples.getD (n_params + 1 + j * (n_params + 2)) 0 := by
    unfold npSlice
    rw [show n_params + 2 - 1 = n_params + 1 from rfl, hsl (n_params + 1) (by omega)]
  have e3 : ((List.range n_params).map fun i =>
        npSlice samples (i + 1) (n_params + 2)).map (fun c => broadcastTo c n_mc) =
      (List.range n_params).map fun i =>
        (List.range n_mc).map fun j => samples.getD (i + 1 + j * (n_params + 2)) 0 := by
    rw [List.map_map]
    refine List.map_congr_left ?_
    intro i hi
    have hi' : i < n_params := List.mem_range.mp hi
    show broadcastTo (npSlice samples (i + 1) (n_params + 2)) n_mc = _
    unfold broadcastTo
    rw [if_pos (by rw [length_npSlice, hsl (i + 1) (by omega)])]
    unfold npSlice
    rw [hsl (i + 1) (by omega)]
  rw [e1, e2, e3]

/-- C3 witness: the synthetic list `[0,…,11]` with `n_params = 2`, `n_mc = 3`
(block size 4) decomposes into `f_M2 = [0,4,8]`, `f_M1 = [3,7,11]`,
`f_Ni 0 = [1,5,9]`, `f_Ni 1 = [2,6,10]`. -/
theorem separate_output_values_recovers_saltelli_blocks_witness :
    separate_output_values [0, 1, 2, 3, 4, 5, 6, 7, 8, 9, 10, 11] 2 3 =
      .ok ([0, 4, 8], [3, 7, 11], [[1, 5, 9], [2, 6, 10]]) := by
  have h := separate_output_values_recovers_saltelli_blocks 2 3
    [0, 1, 2, 3, 4, 5, 6, 7, 8, 9, 10, 11] (by omega) (by omega) (by rfl)
  rw [h]
  rfl

/-- C9 counterexample: a sample count of `4` with `n_params = 1` is NOT a
multiple of `n_params + 2 = 3` (the pipeline would pass
`n_mc = int(4/3) = 1`), yet the decomposition succeeds — no `ShapeError`
or any other failure is raised, refuting "fails whenever the per-QoI sample
count is not an exact multiple of n_params+2". -/
theorem separate_output_values_succeeds_on_nonmultiple :
    (separate_output_values [0, 1, 2, 3] 1 1).isOk = true ∧
      ¬ (1 + 2) ∣ List.length ([0, 1, 2, 3] : List ℚ) := by
  exact ⟨rfl, by decide⟩

/-- C9 amended: `_separate_output_values` performs no divisibility check.
Run with the pipeline's `n_mc = ⌊L / (n_params+2)⌋`, it succeeds exactly when
the sample list is nonempty and either `L mod (n_params+2) ≤ 1` or
`L < n_params + 2`: every positive exact multiple succeeds as specified, a
count with remainder `1` also succeeds silently (the `f_M2` slice simply
carries one extra row), and when `L < n_params + 2` (so `n_mc = 0`) every
`f_Ni` slice has length `0` or `1` and assignment broadcasting accepts it
into the zero-row destination.  Any other count fails, and only as a numpy
broadcast `ValueError` — never as a `ShapeError`. -/
theorem separate_output_values_success_iff
    (n_params : ℕ) (samples : List ℚ) (hp : 1 ≤ n_params) :
    (separate_output_values samples n_params
        (samples.length / (n_params + 2))).isOk = true ↔
      samples ≠ [] ∧ (samples.length % (n_params + 2) ≤ 1 ∨
        samples.length < n_params + 2) := by
  by_cases hnil : samples = []
  · subst hnil
    simp [separate_output_values, Except.isOk, Except.toBool]
  · have hpos : 0 < samples.length := List.length_pos.mpr hnil
    have hstep : 0 < n_params + 2 := by omega
    unfold separate_output_values
    rw [if_neg (by simp [hnil])]
    have hiff : (((List.range n_params).map fun i =>
        npSlice samples (i + 1) (n_params + 2)).all
          (fun c => c.length == samples.length / (n_params + 2) ||
            c.length == 1) = true) ↔
        (samples.length % (n_params + 2) ≤ 1 ∨
          samples.length < n_params + 2) := by
      rw [List.all_eq_true]
      constructor
      · intro hall
        by_contra hcon
        push_neg at hcon
        have hr2 : 2 ≤ samples.length % (n_params + 2) := by omega
        have hLs : n_params + 2 ≤ samples.length := by omega
        have hq1 : 1 ≤ samples.length / (n_params + 2) := by
          by_contra hq0
          have hq0' : samples.length / (n_params + 2) = 0 :=
            Nat.eq_zero_of_not_pos hq0
          have key : (n_params + 2) * (samples.length / (n_params + 2)) +
              samples.length % (n_params + 2) = samples.length :=
            Nat.div_add_mod _ _
          rw [hq0', Nat.mul_zero, Nat.zero_add] at key
          have := Nat.mod_lt samples.length hstep
          omega
        have hmem : npSlice samples (0 + 1) (n_params + 2) ∈
            (List.range n_params).map fun i => npSlice samples (i + 1) (n_params + 2) :=
          List.mem_map_of_mem _ (List.mem_range.mpr (by omega))
        have hc := hall _ hmem
        rw [Bool.or_eq_true, beq_iff_eq, beq_iff_eq, length_npSlice,
          npSliceLen_cases _ _ _ hstep (by omega) (by omega), if_pos (by omega)] at hc
        omega
      · intro hok c hc
        obtain ⟨i, hi, rfl⟩ := List.mem_map.mp hc
        have hi' : i < n_params := List.mem_range.mp hi
        rw [Bool.or_eq_true, beq_iff_eq, beq_iff_eq, length_npSlice]
        by_cases hL : i + 1 < samples.length
        · rw [npSliceLen_cases _ _ _ hstep (by omega) hL]
          rcases hok with hr1 | hLs
          · rw [if_neg (by omega)]
            exact Or.inl rfl
          · have hq0 : samples.length / (n_params + 2) = 0 :=
              Nat.div_eq_of_lt hLs
            rw [hq0]
            by_cases hir : i + 1 < samples.length % (n_params + 2)
            · rw [if_pos hir]
              exact Or.inr rfl
            · rw [if_neg hir]
              exact Or.inl rfl
        · unfold npSliceLen
          rw [if_neg hL, Nat.div_eq_of_lt (by omega)]
          exact Or.inl rfl
    by_cases hall : (((List.range n_params).map fun i =>
        npSlice samples (i + 1) (n_params + 2)).all
          (fun c => c.length == samples.length / (n_params + 2) ||
            c.length == 1) = true)
    · rw [if_pos hall]
      exact ⟨fun _ => ⟨hnil, hiff.mp hall⟩, fun _ => rfl⟩
    · rw [if_neg hall]
      simp only [Except.isOk]
      constructor
      · intro h; cases h
      · intro h
        exact absurd (hiff.mpr h.2) hall

/-- C9 amended witness: for `n_params = 1` and samples `[0,1,2,3,4]`
(remainder `5 mod 3 = 2` and length `5 ≥ 3`, so the decomposition fails)
the success criterion of the amended statement is exercised at a concrete
input. -/
theorem separate_output_values_success_iff_witness :
    (separate_output_values [0, 1, 2, 3, 4] 1
        (List.length ([0, 1, 2, 3, 4] : List ℚ) / (1 + 2))).isOk = true ↔
      ([0, 1, 2, 3, 4] : List ℚ) ≠ [] ∧
        (List.length ([0, 1, 2, 3, 4] : List ℚ) % (1 + 2) ≤ 1 ∨
          List.length ([0, 1, 2, 3, 4] : List ℚ) < 1 + 2) :=
  separate_output_values_success_iff 1 [0, 1, 2, 3, 4] (by omega)

/-- The dictionary branch of `QMCAnalysis.get_samples`, for one QoI column.
A python dict is modelled as an association list in iteration order, keyed by
the integer run index `k` that the run label `"Run_k"` encodes: the code's
`int(run_id.split('Run_')[-1])` recovers exactly `k` from such a label, and
the extraction loop's lookup of `'Run_' + str(run_id)` is the lookup of the
index `run_id`, so label strings and index keys are in bijection.
`run_id_int` is the key list; runs are appended for
`run_id in range(1, np.max(run_id_int) + 1)` by dict lookup (`np.max` of an
empty sequence raises `ValueError`; a missing label raises `KeyError`). -/
def get_samples_dict (entries : List (ℕ × ℚ)) : Except String (List ℚ) :=
  let run_id_int := entries.map fun e => e.1
  if run_id_int = [] then .error "ValueError: max of an empty sequence"
  else
    (List.range (run_id_int.foldr max 0)).mapM fun i =>
      match entries.lookup (i + 1) with
      | some v => Except.ok v
      | none => Except.error "KeyError"

lemma foldr_max_le (l : List ℕ) (b : ℕ) (h : ∀ x ∈ l, x ≤ b) :
    l.foldr max b = b := by
  induction l with
  | nil => rfl
  | cons a t ih =>
    simp only [List.foldr_cons]
    rw [ih fun x hx => h x (List.mem_cons_of_mem _ hx)]
    have := h a (List.mem_cons_self a t)
    omega

lemma foldr_max_perm {l₁ l₂ : List ℕ} (p : l₁.Perm l₂) (b : ℕ) :
    l₁.foldr max b = l₂.foldr max b := by
  induction p with
  | nil => rfl
  | cons a _ ih => simp only [List.foldr_cons, ih]
  | swap x y t => simp only [List.foldr_cons]; omega
  | trans _ _ ih1 ih2 => rw [ih1, ih2]

lemma foldr_max_range_succ (m : ℕ) : ((List.range m).map (· + 1)).foldr max 0 = m := by
  induction m with
  | zero => rfl
  | succ n ih =>
    rw [List.range_succ, List.map_append, List.foldr_append]
    simp only [List.map_cons, List.map_nil, List.foldr_cons, List.foldr_nil]
    rw [show max (n + 1) 0 = n + 1 by omega]
    apply foldr_max_le
    intro x hx
    obtain ⟨j, hj, rfl⟩ := List.mem_map.mp hx
    have := List.mem_range.mp hj
    omega

lemma mapM_lookup_ok (entries : List (ℕ × ℚ)) (v : ℕ → ℚ) (L : List ℕ)
    (h : ∀ i ∈ L, entries.lookup (i + 1) = some (v i)) :
    (L.mapM fun i =>
      match entries.lookup (i + 1) with
      | some x => Except.ok x
      | none => Except.error "KeyError") = Except.ok (L.map v) := by
  induction L with
  | nil => rfl
  | cons a t ih =>
    rw [List.mapM_cons, h a (List.mem_cons_self a t),
      ih fun i hi => h i (List.mem_cons_of_mem a hi)]
    rfl

/-- C7: when the dictionary's labels encode exactly the run indices
`1, …, m` (no gaps: the number of distinct indices equals the maximum index)
and label `"Run_(i+1)"` maps to value `v i`, the adapter returns
`[v 0, v 1, …, v (m-1)]` — the evaluations in strictly ascending numeric run
order starting at `Run_1`, regardless of the dictionary's iteration order
(both hypotheses are invariant under reordering of `entries`). -/
theorem get_samples_dict_ascending_run_order
    (entries : List (ℕ × ℚ)) (m : ℕ) (v : ℕ → ℚ) (hm : 1 ≤ m)
    (hkeys : (entries.map fun e => e.1).Perm ((List.range m).map (· + 1)))
    (hv : ∀ i < m, entries.lookup (i + 1) = some (v i)) :
    get_samples_dict entries = .ok ((List.range m).map v) := by
  have hmax : (entries.map fun e => e.1).foldr max 0 = m := by
    rw [foldr_max_perm hkeys, foldr_max_range_succ]
  have hne : (entries.map fun e => e.1) ≠ [] := by
    intro h
    have hl := hkeys.length_eq
    rw [h] at hl
    simp at hl
    omega
  unfold get_samples_dict
  rw [if_neg hne, hmax,
    mapM_lookup_ok entries v (List.range m) fun i hi => hv i (List.mem_range.mp hi)]

/-- C7 witness: `{"te": {"Run_2": 5, "Run_1": 3}}` (stored with run 2 first)
yields the ordered list `[3, 5]` — run 1 before run 2. -/
theorem get_samples_dict_ascending_run_order_witness :
    get_samples_dict [(2, 5), (1, 3)] = .ok [3, 5] := by
  have h := get_samples_dict_ascending_run_order [(2, 5), (1, 3)] 2
    (fun i => if i = 0 then 3 else 5) (by omega) (by decide) (by decide)
  rw [h]
  rfl

/-- Column `b` of the fancy-indexed array `f[r]` for an index matrix `r` of
shape `(n_mc, n_bootstrap)`: element `a` is `f[r[a][b]]`.  The estimators
reduce along axis 0, so bootstrap replicate `b` of the vectorized
`(n_bootstrap, …)`-shaped result is the estimator applied to this column. -/
def colResample (f : List ℚ) (r : List (List ℕ)) (b : ℕ) : List ℚ :=
  r.map fun row => f.getD (row.getD b 0) 0

/-- `f[r[i]]` as used by the sequential loop: `f` indexed by ROW `i` of `r`
(a list of `n_bootstrap` indices, not `n_mc`). -/
def rowResample (f : List ℚ) (r : List (List ℕ)) (i : ℕ) : List ℚ :=
  (r.getD i []).map fun idx => f.getD idx 0

/-- The vectorized bootstrap branch of `sobol_bootstrap` (taken when
`n_mc * n_bootstrap * n_qoi <= 10**7`):
`sobols_first = self._first_order(f_M2[r], f_M1[r], f_Ni[r, j])` and
`sobols_total = self._total_order(f_M2[r], f_M1[r], f_Ni[r, j])`,
decomposed into one replicate per bootstrap column of `r`. -/
def bootstrapVectorized (f_M2 f_M1 fNij : List ℚ) (r : List (List ℕ))
    (n_bootstrap : ℕ) : List ℚ × List ℚ :=
  ((List.range n_bootstrap).map fun b =>
      first_order (colResample f_M2 r b) (colResample f_M1 r b) (colResample fNij r b),
   (List.range n_bootstrap).map fun b =>
      total_order (colResample f_M2 r b) (colResample f_M1 r b) (colResample fNij r b))

/-- The sequential bootstrap branch of `sobol_bootstrap`:
`for i in range(n_bootstrap): sobols_first[i] = self._first_order(f_M2[r[i]], f_M1[r[i]], f_Ni[r[i], j])`
and likewise for `sobols_total` — each trial `i` resamples by row `i` of `r`. -/
def bootstrapSequential (f_M2 f_M1 fNij : List ℚ) (r : List (List ℕ))
    (n_bootstrap : ℕ) : List ℚ × List ℚ :=
  ((List.range n_bootstrap).map fun i =>
      first_order (rowResample f_M2 r i) (rowResample f_M1 r i) (rowResample fNij r i),
   (List.range n_bootstrap).map fun i =>
      total_order (rowResample f_M2 r i) (rowResample f_M1 r i) (rowResample fNij r i))

/-- C4 refutation: with the shared index matrix `r = [[0,0],[1,1]]`
(`n_mc = n_bootstrap = 2`, entries in `[0, n_mc)`) and samples
`f_M2 = [0,1]`, `f_M1 = [1,2]`, `f_Ni = [1,0]`, the vectorized path resamples
by the COLUMNS of `r` (both replicates use `[0,1]`, giving `[-1, -1]`) while
the sequential path resamples by its ROWS (`[0,0]` and `[1,1]`, giving
`[4, -8]`): the two strategies do not produce identical replicate
estimates. -/
theorem bootstrap_paths_disagree_on_shared_index_matrix :
    bootstrapVectorized [0, 1] [1, 2] [1, 0] [[0, 0], [1, 1]] 2 ≠
      bootstrapSequential [0, 1] [1, 2] [1, 0] [[0, 0], [1, 1]] 2 := by
  have h1 : bootstrapVectorized [0, 1] [1, 2] [1, 0] [[0, 0], [1, 1]] 2 =
      ([-1, -1], [1, 1]) := by
    norm_num [bootstrapVectorized, colResample, first_order, total_order,
      npVar, npMean, List.range_succ]
  have h2 : bootstrapSequential [0, 1] [1, 2] [1, 0] [[0, 0], [1, 1]] 2 =
      ([4, -8], [2, 2]) := by
    norm_num [bootstrapSequential, rowResample, first_order, total_order,
      npVar, npMean, List.range_succ]
    split_ifs <;> simp_all <;> norm_num
  rw [h1, h2]
  intro h
  rw [Prod.mk.injEq] at h
  have := h.1
  simp at this

/-- Insertion step of the sort underlying the percentile computation. -/
def insortQ (x : ℚ) : List ℚ → List ℚ
  | [] => [x]
  | y :: ys => if x ≤ y then x :: y :: ys else y :: insortQ x ys

/-- Sort a replicate distribution into ascending order (insertion sort). -/
def sortQ (l : List ℚ) : List ℚ := l.foldr insortQ []

/-- Modelled from the spec: `np.percentile(dist, q)` as used by the missing
`easyvvuq/analysis/ensemble_boot.py` (only its caller is under `src/`): the
`q`-th percentile of the distribution with numpy's default linear
interpolation — sort, take `h = q/100 * (n-1)`, and interpolate between the
entries at `⌊h⌋` and `⌊h⌋+1`. -/
def percentile (l : List ℚ) (q : ℚ) : ℚ :=
  let s := sortQ l
  let n := s.length
  if n = 0 then 0
  else
    let h := q / 100 * ((n : ℚ) - 1)
    let d := h - ⌊h⌋
    s.getD (⌊h⌋).toNat 0 +
      d * (s.getD (min ((⌊h⌋).toNat + 1) (n - 1)) 0 - s.getD (⌊h⌋).toNat 0)

/-- Modelled from the spec: `confidence_interval(dist, value, alpha, pivotal)`
of `easyvvuq/analysis/ensemble_boot.py`, which is not under `src/`.  Per
§4.4 step 6 the pivotal (reflection) interval is
`low = 2*point_estimate - percentile(replicates, 100*(1-alpha/2))`,
`high = 2*point_estimate - percentile(replicates, 100*alpha/2)`; the triple
`(statistic, low, high)` matches the caller's unpacking
`_, low, high = confidence_interval(...)`.  Only the pivotal branch is
modelled: `sobol_bootstrap` always calls with `pivotal=True`. -/
def confidence_interval (dist : List ℚ) (value : ℚ) (alpha : ℚ)
    (pivotal : Bool) : ℚ × ℚ × ℚ :=
  (value, 2 * value - percentile dist (100 * (1 - alpha / 2)),
   2 * value - percentile dist (100 * (alpha / 2)))

/-- C6: the returned interval is the pivotal (reflection) interval
`(2*point - percentile(replicates, 100*(1-alpha/2)),
  2*point - percentile(replicates, 100*alpha/2))`, and for a single replicate
(`n_bootstrap = 1`) it collapses to the single point `2*point - replicate`
(every percentile of a one-element distribution is that element). -/
theorem confidence_interval_pivotal_reflection (dist : List ℚ) (value alpha : ℚ) :
    confidence_interval dist value alpha true =
      (value, 2 * value - percentile dist (100 * (1 - alpha / 2)),
       2 * value - percentile dist (100 * (alpha / 2))) ∧
    ∀ x : ℚ, dist = [x] →
      confidence_interval dist value alpha true =
        (value, 2 * value - x, 2 * value - x) := by
  refine ⟨rfl, ?_⟩
  rintro x rfl
  have hp : ∀ q : ℚ, percentile [x] q = x := by
    intro q
    norm_num [percentile, sortQ, insortQ]
  simp [confidence_interval, hp]

/-- C6 witness: a single replicate `5` with point estimate `3` and
`alpha = 0.05` gives the collapsed interval `(2*3-5, 2*3-5) = (1, 1)`. -/
theorem confidence_interval_pivotal_reflection_witness :
    confidence_interval [5] 3 (1 / 20) true = (3, 1, 1) := by
  have h := (confidence_interval_pivotal_reflection [5] 3 (1 / 20)).2 5 rfl
  rw [h]
  norm_num

/-- The sampler metadata `sobol_bootstrap` can see: `sampler.n_params`, the
parameter names `sampler.vary.get_keys()`, and the configured sample count
`sampler.n_mc_samples` (referenced only by the commented-out line
`# n_mc = self.sampler.n_mc_samples`). -/
structure Sampler where
  n_params : ℕ
  n_mc_samples : ℕ
  varyKeys : List String

/-- `n_mc = int(samples.shape[0]/(n_params + 2))`: the base-sample count the
analysis derives from the input sample list itself. -/
def nMcUsed (samples : List ℚ) (n_params : ℕ) : ℕ :=
  samples.length / (n_params + 2)

/-- `QMCAnalysis.sobol_bootstrap(samples, alpha, n_bootstrap)`.  The four
python `assert`s guard the inputs in source order.  The resampling index
matrix `r = np.random.randint(n_mc, size=(n_mc, n_bootstrap))` is drawn from
the process-wide RNG; the drawn matrix is taken here as the explicit
parameter `r`, shared across all parameters and both index types.  A scalar
QoI has `n_qoi = samples[0].size = 1`.  The four result dicts keyed by
parameter name are packaged as one list of
`(param_name, first, (low, high), total, (low, high))` tuples in
`vary.get_keys()` order. -/
def sobol_bootstrap (sampler : Sampler) (r : List (List ℕ)) (samples : List ℚ)
    (alpha : ℚ) (n_bootstrap : ℕ) :
    Except String (List (String × (ℚ × (ℚ × ℚ) × ℚ × (ℚ × ℚ)))) :=
  if samples.isEmpty then .error "AssertionError: len(samples) > 0"
  else if alpha ≤ 0 then .error "AssertionError: alpha > 0.0"
  else if 1 ≤ alpha then .error "AssertionError: alpha < 1.0"
  else if n_bootstrap = 0 then .error "AssertionError: n_bootstrap > 0"
  else
    let n_params := sampler.n_params
    let n_mc := nMcUsed samples n_params
    let n_qoi := 1
    match separate_output_values samples n_params n_mc with
    | .error e => .error e
    | .ok (f_M2, f_M1, f_Ni) =>
      .ok <| sampler.varyKeys.enum.map fun je =>
        let j := je.1
        let param_name := je.2
        let fNij := f_Ni.getD j []
        let value_first := first_order f_M2 f_M1 fNij
        let value_total := total_order f_M2 f_M1 fNij
        let sobols :=
          if n_mc * n_bootstrap * n_qoi ≤ 10 ^ 7 then
            bootstrapVectorized f_M2 f_M1 fNij r n_bootstrap
          else
            bootstrapSequential f_M2 f_M1 fNij r n_bootstrap
        let cf := confidence_interval sobols.1 value_first alpha true
        let ct := confidence_interval sobols.2 value_total alpha true
        (param_name, value_first, (cf.2.1, cf.2.2), value_total, (ct.2.1, ct.2.2))

/-- `QMCAnalysis.compute_results(samples)`: per QoI column, the statistical
moments and the `sobol_bootstrap` outputs.  Moments are `(mean, var)`;
`np.std` is `sqrt(var)`, determined by `var` and not representable in `ℚ`,
so it is not carried separately.  The sample table is the `get_samples`
output: a map from QoI name to its ordered evaluation list. -/
def compute_results (sampler : Sampler) (qoi_cols : List String)
    (r : List (List ℕ)) (alpha : ℚ) (n_bootstrap : ℕ)
    (samples : String → List ℚ) :
    List (String × ((ℚ × ℚ) ×
      Except String (List (String × (ℚ × (ℚ × ℚ) × ℚ × (ℚ × ℚ)))))) :=
  qoi_cols.map fun k =>
    (k, ((npMean (samples k), npVar (samples k)),
         sobol_bootstrap sampler r (samples k) alpha n_bootstrap))

/-- `QMCAnalysis.merge_campaigns(data_frames)`: starting from empty per-QoI
lists, loop over the frames appending each frame's per-QoI sample lists
(`samples[k] += sample_dict[k]`), then run `compute_results` on the merged
sample set.  The frames enter as their `get_samples` sample tables. -/
def merge_campaigns (sampler : Sampler) (qoi_cols : List String)
    (r : List (List ℕ)) (alpha : ℚ) (n_bootstrap : ℕ)
    (tables : List (String → List ℚ)) :
    List (String × ((ℚ × ℚ) ×
      Except String (List (String × (ℚ × (ℚ × ℚ) × ℚ × (ℚ × ℚ)))))) :=
  let samples := tables.foldl (fun acc t k => acc k ++ t k) fun _ => ([] : List ℚ)
  compute_results sampler qoi_cols r alpha n_bootstrap samples

/-- C8: `sobol_bootstrap` fails (with an `assert`, surfacing as the spec's
`ConfigError`/`InputError`) whenever `alpha ≤ 0`, `alpha ≥ 1`,
`n_bootstrap = 0`, or the sample list is empty; no results object is
returned in any of these cases. -/
theorem sobol_bootstrap_rejects_invalid_config
    (sampler : Sampler) (r : List (List ℕ)) (samples : List ℚ) (alpha : ℚ)
    (n_bootstrap : ℕ)
    (h : samples = [] ∨ alpha ≤ 0 ∨ 1 ≤ alpha ∨ n_bootstrap = 0) :
    ∃ e, sobol_bootstrap sampler r samples alpha n_bootstrap = .error e := by
  unfold sobol_bootstrap
  by_cases h1 : samples.isEmpty = true
  · rw [if_pos h1]; exact ⟨_, rfl⟩
  · rw [if_neg h1]
    by_cases h2 : alpha ≤ 0
    · rw [if_pos h2]; exact ⟨_, rfl⟩
    · rw [if_neg h2]
      by_cases h3 : 1 ≤ alpha
      · rw [if_pos h3]; exact ⟨_, rfl⟩
      · rw [if_neg h3]
        by_cases h4 : n_bootstrap = 0
        · rw [if_pos h4]; exact ⟨_, rfl⟩
        · exfalso
          rcases h with h | h | h | h
          · exact h1 (by simp [h])
          · exact h2 h
          · exact h3 h
          · exact h4 h

/-- C8 witness: concrete rejections for `alpha = 0`, `alpha = 1`,
`n_bootstrap = 0`, and an empty sample list. -/
theorem sobol_bootstrap_rejects_invalid_config_witness :
    (∃ e, sobol_bootstrap ⟨1, 8, ["a"]⟩ [] [0, 1, 2] 0 5 = .error e) ∧
    (∃ e, sobol_bootstrap ⟨1, 8, ["a"]⟩ [] [0, 1, 2] 1 5 = .error e) ∧
    (∃ e, sobol_bootstrap ⟨1, 8, ["a"]⟩ [] [0, 1, 2] (1 / 20) 0 = .error e) ∧
    (∃ e, sobol_bootstrap ⟨1, 8, ["a"]⟩ [] [] (1 / 20) 5 = .error e) :=
  ⟨sobol_bootstrap_rejects_invalid_config _ _ _ _ _ (Or.inr (Or.inl le_rfl)),
   sobol_bootstrap_rejects_invalid_config _ _ _ _ _ (Or.inr (Or.inr (Or.inl le_rfl))),
   sobol_bootstrap_rejects_invalid_config _ _ _ _ _ (Or.inr (Or.inr (Or.inr rfl))),
   sobol_bootstrap_rejects_invalid_config _ _ _ _ _ (Or.inl rfl)⟩

/-- C10: the base-sample count used by `sobol_bootstrap` is derived solely
from the input as `⌊len(samples) / (n_params + 2)⌋` — the sampler's
configured `n_mc_samples` is never consulted (two samplers differing only in
that field produce identical results), and any sample list whose length is
`m * (n_params + 2)` — e.g. a merged sample set — is analysed with the
derived `n_mc = m`. -/
theorem sobol_bootstrap_n_mc_from_input_only
    (s1 s2 : Sampler) (m : ℕ) (r : List (List ℕ)) (samples : List ℚ)
    (alpha : ℚ) (n_bootstrap : ℕ)
    (hp : s1.n_params = s2.n_params) (hk : s1.varyKeys = s2.varyKeys)
    (hm : samples.length = m * (s1.n_params + 2)) :
    sobol_bootstrap s1 r samples alpha n_bootstrap =
      sobol_bootstrap s2 r samples alpha n_bootstrap ∧
    nMcUsed samples s1.n_params = m := by
  constructor
  · obtain ⟨p1, m1, k1⟩ := s1
    obtain ⟨p2, m2, k2⟩ := s2
    simp only at hp hk
    subst hp
    subst hk
    rfl
  · unfold nMcUsed
    rw [hm]
    exact Nat.mul_div_cancel _ (by omega)

/-- C10 witness: samplers `⟨1, 3, ["a"]⟩` and `⟨1, 99, ["a"]⟩` differ only in
the configured sample count, yet analyse `[0,1,2]` identically, with derived
`n_mc = 3 / (1+2) = 1`. -/
theorem sobol_bootstrap_n_mc_from_input_only_witness :
    sobol_bootstrap ⟨1, 3, ["a"]⟩ [[0]] [0, 1, 2] (1 / 20) 1 =
      sobol_bootstrap ⟨1, 99, ["a"]⟩ [[0]] [0, 1, 2] (1 / 20) 1 ∧
    nMcUsed [0, 1, 2] (Sampler.n_params ⟨1, 3, ["a"]⟩) = 1 :=
  sobol_bootstrap_n_mc_from_input_only ⟨1, 3, ["a"]⟩ ⟨1, 99, ["a"]⟩ 1 [[0]]
    [0, 1, 2] (1 / 20) 1 rfl rfl rfl

/-- C5: merging two sample tables with the same parameter configuration —
concatenating their per-QoI sample lists in input order and re-invoking the
same pipeline — equals direct analysis of the single concatenated sample
table, which is analysed with `2 * n_mc` base samples.  (The bootstrap index
matrix `r` is an explicit parameter, so both sides see the same RNG draw.) -/
theorem merge_campaigns_eq_direct_analysis
    (sampler : Sampler) (qoi_cols : List String) (r : List (List ℕ))
    (alpha : ℚ) (n_bootstrap n_mc : ℕ) (t1 t2 : String → List ℚ) (k : String)
    (h1 : ∀ q, (t1 q).length = n_mc * (sampler.n_params + 2))
    (h2 : ∀ q, (t2 q).length = n_mc * (sampler.n_params + 2)) :
    merge_campaigns sampler qoi_cols r alpha n_bootstrap [t1, t2] =
      compute_results sampler qoi_cols r alpha n_bootstrap
        (fun q => t1 q ++ t2 q) ∧
    nMcUsed (t1 k ++ t2 k) sampler.n_params = 2 * n_mc := by
  constructor
  · unfold merge_campaigns
    rfl
  · unfold nMcUsed
    rw [List.length_append, h1 k, h2 k,
      show n_mc * (sampler.n_params + 2) + n_mc * (sampler.n_params + 2) =
        2 * n_mc * (sampler.n_params + 2) by ring]
    exact Nat.mul_div_cancel _ (by omega)

/-- C5 witness: two one-block tables (`n_mc = 1`, `n_params = 1`) merge into
the same results as direct analysis of their concatenation, which runs with
`n_mc = 2`. -/
theorem merge_campaigns_eq_direct_analysis_witness :
    merge_campaigns ⟨1, 0, ["a"]⟩ ["a"] [[0]] (1 / 20) 1
        [fun _ => [0, 1, 2], fun _ => [3, 4, 5]] =
      compute_results ⟨1, 0, ["a"]⟩ ["a"] [[0]] (1 / 20) 1
        (fun q => (fun _ => ([0, 1, 2] : List ℚ)) q ++ (fun _ => ([3, 4, 5] : List ℚ)) q) ∧
    nMcUsed ((fun _ => ([0, 1, 2] : List ℚ)) "a" ++ (fun _ => ([3, 4, 5] : List ℚ)) "a")
        (Sampler.n_params ⟨1, 0, ["a"]⟩) = 2 * 1 :=
  merge_campaigns_eq_direct_analysis ⟨1, 0, ["a"]⟩ ["a"] [[0]] (1 / 20) 1 1
    (fun _ => [0, 1, 2]) (fun _ => [3, 4, 5]) "a" (fun _ => rfl) (fun _ => rfl)
